import Mathlib

/-!
# BasicMat: a shallow embedding of `include/BasicMat.h`

The C++ class `basic_mat::BasicMat<N, M>` is a fixed-size row-major array
`float m[N * M]` with element access, arithmetic, transpose, two matrix
products and printing.

Conventions of the embedding.

* The element type `float` is a type parameter `α` that carries the literal
  `0.0f` as `0` and the operators `+` and `*`; no algebraic law is assumed of
  them unless a theorem lists it as a hypothesis, so the unconditional theorems
  hold for IEEE-754 arithmetic as well as for exact arithmetic.
* `operator[]` performs no range check; an access outside `[0, N * M)` is
  undefined behaviour. Every access therefore returns an `Option`, and `none`
  stands for an out-of-range access.
* `size_t` arithmetic is done in `Nat`: an index `r * M + c` that is in range
  is below `N * M`, the length of an array that exists, so it cannot wrap.
* A C++ `for (size_t i = 0; i < n; i++)` loop is `forLoop n body`.
* A member function returns the state of its receiver after the call together
  with its return value (the receiver alone when the member returns `void`), and a friend that takes a matrix by value returns the
  state of that parameter after the call in the same way. Arguments passed by
  reference to `const` are read-only.
* The local `BasicMat<..> toReturn;` of a member is the default constructor run
  on storage `raw`, an argument of the embedded function that stands for the
  uninitialised array; the theorems hold for every `raw`.
-/

namespace basic_mat

/-- The storage `float m[N * M]` of a `BasicMat<N, M>`: exactly `N * M` elements,
row-major. -/
structure BasicMat (α : Type) (N M : Nat) where
  m : List α
  size_eq : m.length = N * M
deriving DecidableEq

/-- The loop `for (size_t i = 0; i < n; i++) body(i)` over a state `σ`: the bodies
run for `i = 0, 1, ..., n - 1` in this order, and the loop is undefined as soon as
one body is. -/
def forLoop {σ : Type} (body : Nat → σ → Option σ) : Nat → σ → Option σ
  | 0, s => some s
  | n + 1, s => (forLoop body n s).bind (body n)

variable {α : Type} {N M : Nat}

/-- Reading through `operator[]`: `m[idx]`, defined for `idx < N * M` only. -/
def BasicMat.operatorIndex (self : BasicMat α N M) (idx : Nat) : Option α :=
  self.m[idx]?

/-- Writing through the reference that `operator[]` returns: `m[idx] = v`, defined
for `idx < N * M` only. -/
def BasicMat.operatorIndexAssign (self : BasicMat α N M) (idx : Nat) (v : α) :
    Option (BasicMat α N M) :=
  if idx < N * M then
    some ⟨self.m.set idx v, by rw [List.length_set]; exact self.size_eq⟩
  else none

/-- Reading through `operator()`: `(*this)[r * M + c]`. -/
def BasicMat.operatorCall (self : BasicMat α N M) (r c : Nat) : Option α :=
  self.operatorIndex (r * M + c)

/-- Writing through the reference that `operator()` returns. -/
def BasicMat.operatorCallAssign (self : BasicMat α N M) (r c : Nat) (v : α) :
    Option (BasicMat α N M) :=
  self.operatorIndexAssign (r * M + c) v

/-- The default constructor run on storage `raw` (whatever the array held before):
`for (i < N * M) m[i] = 0.0f`. -/
def BasicMat.construct [Zero α] (raw : BasicMat α N M) : Option (BasicMat α N M) :=
  forLoop (fun i t => t.operatorIndexAssign i 0) (N * M) raw

/-- The member `PostMult`: the receiver after the call and the returned matrix.
`raw` is the storage of the local `toReturn` before its constructor runs. -/
def BasicMat.PostMult [Zero α] [Add α] [Mul α] {M2 : Nat} (self : BasicMat α N M)
    (rhs : BasicMat α M M2) (raw : BasicMat α N M2) :
    Option (BasicMat α N M × BasicMat α N M2) := do
  let toReturn ← BasicMat.construct raw
  let toReturn ← forLoop (fun r t =>
    forLoop (fun c t =>
      forLoop (fun k t => do
        let a ← self.operatorCall r k
        let b ← rhs.operatorCall k c
        let old ← t.operatorCall r c
        t.operatorCallAssign r c (old + a * b)) M t) M2 t) N toReturn
  pure (self, toReturn)

/-- The member `PreMult` as written in the source: the inner statement is
`toReturn(r, c) += lhs(r, k) * (*this)(k, r)`. Returns the receiver after the call and
the returned matrix. -/
def BasicMat.PreMult [Zero α] [Add α] [Mul α] {N2 : Nat} (self : BasicMat α N M)
    (lhs : BasicMat α N2 N) (raw : BasicMat α N2 M) :
    Option (BasicMat α N M × BasicMat α N2 M) := do
  let toReturn ← BasicMat.construct raw
  let toReturn ← forLoop (fun r t =>
    forLoop (fun c t =>
      forLoop (fun k t => do
        let a ← lhs.operatorCall r k
        let b ← self.operatorCall k r
        let old ← t.operatorCall r c
        t.operatorCallAssign r c (old + a * b)) N t) M t) N2 toReturn
  pure (self, toReturn)

/-- The `const` member `Transpose`: `toReturn(c, r) = (*this)(r, c)` for all `r < N`,
`c < M`. Returns the receiver after the call and the returned matrix. -/
def BasicMat.Transpose [Zero α] (self : BasicMat α N M) (raw : BasicMat α M N) :
    Option (BasicMat α N M × BasicMat α M N) := do
  let toReturn ← BasicMat.construct raw
  let toReturn ← forLoop (fun r t =>
    forLoop (fun c t => do
      let v ← self.operatorCall r c
      t.operatorCallAssign c r v) M t) N toReturn
  pure (self, toReturn)

/-- The member `operator*=(const float scalar)`: copies the receiver into the local
`toReturn`, scales the copy element by element and returns it. Returns the receiver
after the call and the returned matrix. -/
def BasicMat.operatorMulAssign [Mul α] (self : BasicMat α N M) (scalar : α) :
    Option (BasicMat α N M × BasicMat α N M) := do
  let toReturn := self
  let toReturn ← forLoop (fun i t => do
    let old ← t.operatorIndex i
    t.operatorIndexAssign i (old * scalar)) (N * M) toReturn
  pure (self, toReturn)

/-- The friend `operator*(Type lhs, const float& rhs)`: `return lhs *= rhs;`. The
parameter `lhs` is a copy of the argument of the caller; the result is the state of
`lhs` after the call and the returned matrix. -/
def operatorMul [Mul α] (lhs : BasicMat α N M) (rhs : α) :
    Option (BasicMat α N M × BasicMat α N M) :=
  lhs.operatorMulAssign rhs

/-- The friend `operator*(const float& rhs, Type lhs)`: `return lhs *= rhs;`, with the
state of the by-value parameter `lhs` after the call and the returned matrix. -/
def operatorMulLeft [Mul α] (rhs : α) (lhs : BasicMat α N M) :
    Option (BasicMat α N M × BasicMat α N M) :=
  lhs.operatorMulAssign rhs

/-- The member `operator*=(const BasicMat<M, M2>& rhs)`: `return PostMult(rhs);`. -/
def BasicMat.operatorMulAssignMat [Zero α] [Add α] [Mul α] {M2 : Nat}
    (self : BasicMat α N M) (rhs : BasicMat α M M2) (raw : BasicMat α N M2) :
    Option (BasicMat α N M × BasicMat α N M2) :=
  self.PostMult rhs raw

/-- The friend `operator*(Type lhs, const BasicMat<M, M2>& rhs)`: `return lhs *= rhs;`,
with the state of the by-value parameter `lhs` after the call and the returned matrix. -/
def operatorMulMat [Zero α] [Add α] [Mul α] {M2 : Nat}
    (lhs : BasicMat α N M) (rhs : BasicMat α M M2) (raw : BasicMat α N M2) :
    Option (BasicMat α N M × BasicMat α N M2) :=
  lhs.operatorMulAssignMat rhs raw

/-- The member `operator=(const Type& other)` when `other` is another object:
`for (i < N * M) m[i] = other[i]`. The member returns `void`; the result is the receiver
after the call. -/
def BasicMat.operatorAssign (self other : BasicMat α N M) : Option (BasicMat α N M) :=
  forLoop (fun i t => do
    let v ← other.operatorIndex i
    t.operatorIndexAssign i v) (N * M) self

/-- The member `operator=` when `other` is the receiver itself (`A = A`): the read
`other[i]` sees the array that the loop is writing. -/
def BasicMat.operatorAssignSelf (self : BasicMat α N M) : Option (BasicMat α N M) :=
  forLoop (fun i t => do
    let v ← t.operatorIndex i
    t.operatorIndexAssign i v) (N * M) self

/-- The member `operator+=(const Type& other)`: `for (i < N * M) m[i] += other[i]`. The
member returns `void`; the result is the receiver after the call. -/
def BasicMat.operatorAddAssign [Add α] (self other : BasicMat α N M) :
    Option (BasicMat α N M) :=
  forLoop (fun i t => do
    let old ← t.operatorIndex i
    let v ← other.operatorIndex i
    t.operatorIndexAssign i (old + v)) (N * M) self

/-- The friend `operator+(Type lhs, const Type& rhs)`:
`Type toReturn = lhs; toReturn += rhs; return toReturn;`, with the state of the by-value
parameter `lhs` after the call and the returned matrix. -/
def operatorAdd [Add α] (lhs rhs : BasicMat α N M) :
    Option (BasicMat α N M × BasicMat α N M) := do
  let toReturn := lhs
  let toReturn ← toReturn.operatorAddAssign rhs
  pure (lhs, toReturn)

/-- The member `ToString`: for each row, `ss << (*this)(r, c) << " "` for each column and
then `ss << "\n"`. The conversion of a `float` to text by the stream is the parameter
`render`. Returns the receiver after the call and `ss.str()`. -/
def BasicMat.ToString (render : α → String) (self : BasicMat α N M) :
    Option (BasicMat α N M × String) := do
  let ss := ""
  let ss ← forLoop (fun r ss => do
    let ss ← forLoop (fun c ss => do
      let v ← self.operatorCall r c
      pure (ss ++ render v ++ " ")) M ss
    pure (ss ++ "\n")) N ss
  pure (self, ss)

/-! ## Specification-side definitions -/

/-- The element in row `r`, column `c` as a total function (`0` outside the matrix). -/
def BasicMat.elem [Zero α] (self : BasicMat α N M) (r c : Nat) : α :=
  (self.operatorCall r c).getD 0

/-- The element at linear index `i` as a total function (`0` outside the array). -/
def BasicMat.lin [Zero α] (self : BasicMat α N M) (i : Nat) : α :=
  (self.operatorIndex i).getD 0

/-- The value `x0 + f 0 + f 1 + ... + f (n - 1)`, accumulated from the left. -/
def accFrom [Add α] (x0 : α) (f : Nat → α) : Nat → α
  | 0 => x0
  | n + 1 => accFrom x0 f n + f n

/-- The sum of `f k` over `k` in `[0, n)`, accumulated from `0` in increasing `k`. -/
def sumTo [Zero α] [Add α] (f : Nat → α) (n : Nat) : α :=
  accFrom 0 f n

/-- The matrix with element `f r c` in row `r`, column `c`. -/
def BasicMat.ofFn (f : Nat → Nat → α) : BasicMat α N M :=
  ⟨(List.range (N * M)).map (fun i => f (i / M) (i % M)), by simp⟩

/-- The matrix product `L * X` of the specification: element `(r, c)` is the sum over
`k` in `[0, N)` of `L(r, k) * X(k, c)`. -/
def trueProduct [Zero α] [Add α] [Mul α] {N2 : Nat} (L : BasicMat α N2 N)
    (X : BasicMat α N M) : BasicMat α N2 M :=
  BasicMat.ofFn (fun r c => sumTo (fun k => L.elem r k * X.elem k c) N)

/-- The `M × M` identity matrix: `1` on the diagonal and `0` elsewhere. -/
def identity [Zero α] [One α] (M : Nat) : BasicMat α M M :=
  BasicMat.ofFn (fun r c => if r = c then 1 else 0)

/-- The text of an `N × M` matrix in the words of the specification: the concatenation,
for `r = 0, ..., N - 1`, of the concatenation for `c = 0, ..., M - 1` of the text of
element `(r, c)` followed by one space, followed by a newline. -/
def displayText [Zero α] (render : α → String) (A : BasicMat α N M) : String :=
  String.join ((List.range N).map (fun r =>
    String.join ((List.range M).map (fun c => render (A.elem r c) ++ " ")) ++ "\n"))

/-- The values of the C++ `float` that the counterexamples use: the integers (exact in
binary32 while below `2 ^ 24` in magnitude, the sign of zero ignored), the two
infinities and NaN. -/
inductive Flt where
  | num (z : Int)
  | inf (negative : Bool)
  | nan
deriving DecidableEq

/-- IEEE-754 addition on `Flt`: NaN propagates, `∞ + (-∞)` is NaN, an infinity absorbs
a finite value. -/
def Flt.add : Flt → Flt → Flt
  | Flt.nan, _ => Flt.nan
  | _, Flt.nan => Flt.nan
  | Flt.inf s, Flt.inf s' => if s = s' then Flt.inf s else Flt.nan
  | Flt.inf s, Flt.num _ => Flt.inf s
  | Flt.num _, Flt.inf s => Flt.inf s
  | Flt.num a, Flt.num b => Flt.num (a + b)

/-- IEEE-754 multiplication on `Flt`: NaN propagates, `∞ * 0` is NaN, otherwise the
signs multiply. -/
def Flt.mul : Flt → Flt → Flt
  | Flt.nan, _ => Flt.nan
  | _, Flt.nan => Flt.nan
  | Flt.inf s, Flt.inf s' => Flt.inf (xor s s')
  | Flt.inf s, Flt.num z => if z = 0 then Flt.nan else Flt.inf (xor s (decide (z < 0)))
  | Flt.num z, Flt.inf s => if z = 0 then Flt.nan else Flt.inf (xor (decide (z < 0)) s)
  | Flt.num a, Flt.num b => Flt.num (a * b)

instance : Zero Flt := ⟨Flt.num 0⟩
instance : One Flt := ⟨Flt.num 1⟩
instance : Add Flt := ⟨Flt.add⟩
instance : Mul Flt := ⟨Flt.mul⟩

/-- The three nested loops shared by `PostMult` and `PreMult`: for `r < R`, `c < C`,
`k < K` in this order, `t(r, c) += a * b` where `a` and `b` are the two operands read
at `(r, c, k)`. -/
def mulLoops [Add α] [Mul α] (ra rb : Nat → Nat → Nat → Option α) (R C K : Nat)
    (t : BasicMat α R C) : Option (BasicMat α R C) :=
  forLoop (fun r t =>
    forLoop (fun c t =>
      forLoop (fun k t => do
        let a ← ra r c k
        let b ← rb r c k
        let old ← t.operatorCall r c
        t.operatorCallAssign r c (old + a * b)) K t) C t) R t

/-! ## Loops, indices and accesses -/

theorem forLoop_inv {σ : Type} (body : Nat → σ → Option σ) (Inv : Nat → σ → Prop)
    (n : Nat) (s : σ) (h0 : Inv 0 s)
    (hstep : ∀ i t, i < n → Inv i t → ∃ t', body i t = some t' ∧ Inv (i + 1) t') :
    ∃ t, forLoop body n s = some t ∧ Inv n t := by
  induction n with
  | zero => exact ⟨s, rfl, h0⟩
  | succ n ih =>
    obtain ⟨t, ht, hI⟩ := ih (fun i t hi => hstep i t (Nat.lt_succ_of_lt hi))
    obtain ⟨t', ht', hI'⟩ := hstep n t (Nat.lt_succ_self n) hI
    exact ⟨t', by simp [forLoop, ht, ht'], hI'⟩

theorem index_lt {N M r c : Nat} (hr : r < N) (hc : c < M) : r * M + c < N * M := by
  have h1 : (r + 1) * M ≤ N * M := Nat.mul_le_mul_right M hr
  have h2 : (r + 1) * M = r * M + M := by ring
  omega

theorem index_div {M r c : Nat} (hc : c < M) : (r * M + c) / M = r := by
  have hM : 0 < M := by omega
  rw [Nat.mul_comm, Nat.mul_add_div hM, Nat.div_eq_of_lt hc, Nat.add_zero]

theorem index_mod {M r c : Nat} (hc : c < M) : (r * M + c) % M = c := by
  rw [Nat.mul_comm, Nat.mul_add_mod, Nat.mod_eq_of_lt hc]

theorem index_inj {M r c r' c' : Nat} (hc : c < M) (hc' : c' < M)
    (h : r * M + c = r' * M + c') : r = r' ∧ c = c' := by
  have h1 := @index_div M r c hc
  have h2 := @index_mod M r c hc
  rw [h] at h1 h2
  rw [index_div hc'] at h1
  rw [index_mod hc'] at h2
  exact ⟨h1.symm, h2.symm⟩

theorem index_split {N M i : Nat} (h : i < N * M) :
    i / M < N ∧ i % M < M ∧ i / M * M + i % M = i := by
  have hM : 0 < M := by
    rcases Nat.eq_zero_or_pos M with h0 | h0
    · subst h0; simp at h
    · exact h0
  refine ⟨(Nat.div_lt_iff_lt_mul hM).2 h, Nat.mod_lt _ hM, ?_⟩
  rw [Nat.mul_comm]; exact Nat.div_add_mod i M

theorem operatorIndex_lt (A : BasicMat α N M) {i : Nat} (h : i < N * M) :
    ∃ v, A.operatorIndex i = some v := by
  have hl : i < A.m.length := by rw [A.size_eq]; exact h
  exact ⟨A.m[i], List.getElem?_eq_getElem hl⟩

theorem operatorIndex_eq_none_iff (A : BasicMat α N M) (i : Nat) :
    A.operatorIndex i = none ↔ N * M ≤ i := by
  unfold BasicMat.operatorIndex
  rw [List.getElem?_eq_none_iff, A.size_eq]

theorem operatorIndexAssign_lt (A : BasicMat α N M) {i : Nat} (h : i < N * M) (v : α) :
    ∃ B, A.operatorIndexAssign i v = some B ∧ B.operatorIndex i = some v ∧
      ∀ j, j ≠ i → B.operatorIndex j = A.operatorIndex j := by
  have hl : i < A.m.length := by rw [A.size_eq]; exact h
  refine ⟨⟨A.m.set i v, by rw [List.length_set]; exact A.size_eq⟩, ?_, ?_, ?_⟩
  · simp [BasicMat.operatorIndexAssign, h]
  · simp [BasicMat.operatorIndex, List.getElem?_set, hl]
  · intro j hj
    simp only [BasicMat.operatorIndex]
    exact List.getElem?_set_ne (Ne.symm hj)

theorem operatorIndexAssign_eq_none_iff (A : BasicMat α N M) (i : Nat) (v : α) :
    A.operatorIndexAssign i v = none ↔ N * M ≤ i := by
  unfold BasicMat.operatorIndexAssign
  split <;> simp <;> omega

theorem BasicMat.ext_index {A B : BasicMat α N M}
    (h : ∀ i, i < N * M → A.operatorIndex i = B.operatorIndex i) : A = B := by
  cases A with
  | mk a ha =>
    cases B with
    | mk b hb =>
      have : a = b := by
        apply List.ext_getElem?
        intro n
        by_cases hn : n < N * M
        · exact h n hn
        · rw [List.getElem?_eq_none (by omega), List.getElem?_eq_none (by omega)]
      subst this
      rfl

theorem operatorCall_lt (A : BasicMat α N M) {r c : Nat} (hr : r < N) (hc : c < M) :
    ∃ v, A.operatorCall r c = some v :=
  operatorIndex_lt A (index_lt hr hc)

theorem operatorCallAssign_lt (A : BasicMat α N M) {r c : Nat} (hr : r < N) (hc : c < M)
    (v : α) :
    ∃ B, A.operatorCallAssign r c v = some B ∧ B.operatorCall r c = some v ∧
      ∀ r' c', c' < M → (r' ≠ r ∨ c' ≠ c) → B.operatorCall r' c' = A.operatorCall r' c' := by
  obtain ⟨B, hB, hv, hne⟩ := operatorIndexAssign_lt A (index_lt hr hc) v
  refine ⟨B, hB, hv, ?_⟩
  intro r' c' hc' hd
  apply hne
  intro heq
  have := index_inj hc' hc heq
  rcases hd with hd | hd
  · exact hd this.1
  · exact hd this.2

theorem BasicMat.ext_call {A B : BasicMat α N M}
    (h : ∀ r c, r < N → c < M → A.operatorCall r c = B.operatorCall r c) : A = B := by
  apply BasicMat.ext_index
  intro i hi
  obtain ⟨h1, h2, h3⟩ := index_split hi
  have := h _ _ h1 h2
  simp only [BasicMat.operatorCall, h3] at this
  exact this

theorem construct_spec [Zero α] (raw : BasicMat α N M) :
    ∃ t, BasicMat.construct raw = some t ∧ ∀ i, i < N * M → t.operatorIndex i = some 0 := by
  obtain ⟨t, ht, hI⟩ := forLoop_inv (fun i (t : BasicMat α N M) => t.operatorIndexAssign i 0)
    (fun i t => ∀ j, j < i → t.operatorIndex j = some 0) (N * M) raw
    (fun j hj => absurd hj (Nat.not_lt_zero j))
    (by
      intro i t hi hinv
      obtain ⟨B, hB, hv, hne⟩ := operatorIndexAssign_lt t hi (0 : α)
      refine ⟨B, hB, ?_⟩
      intro j hj
      by_cases hji : j = i
      · rw [hji]; exact hv
      · rw [hne j hji]; exact hinv j (by omega))
  exact ⟨t, ht, hI⟩

theorem construct_call [Zero α] (raw : BasicMat α N M) :
    ∃ t, BasicMat.construct raw = some t ∧
      ∀ r c, r < N → c < M → t.operatorCall r c = some 0 := by
  obtain ⟨t, ht, h⟩ := construct_spec raw
  exact ⟨t, ht, fun r c hr hc => h _ (index_lt hr hc)⟩

theorem accLoop_spec [Add α] [Mul α] {R C : Nat} (ra rb : Nat → Option α)
    (fa fb : Nat → α) (n r c : Nat) (hr : r < R) (hc : c < C) (t : BasicMat α R C) (x0 : α)
    (h0 : t.operatorCall r c = some x0)
    (hread : ∀ k, k < n → ra k = some (fa k) ∧ rb k = some (fb k)) :
    ∃ t', forLoop (fun k (t : BasicMat α R C) => do
        let a ← ra k
        let b ← rb k
        let old ← t.operatorCall r c
        t.operatorCallAssign r c (old + a * b)) n t = some t' ∧
      t'.operatorCall r c = some (accFrom x0 (fun k => fa k * fb k) n) ∧
      ∀ r' c', c' < C → (r' ≠ r ∨ c' ≠ c) → t'.operatorCall r' c' = t.operatorCall r' c' := by
  obtain ⟨t', ht', hI⟩ := forLoop_inv (fun k (t : BasicMat α R C) => do
        let a ← ra k
        let b ← rb k
        let old ← t.operatorCall r c
        t.operatorCallAssign r c (old + a * b))
    (fun k t' => t'.operatorCall r c = some (accFrom x0 (fun k => fa k * fb k) k) ∧
      ∀ r' c', c' < C → (r' ≠ r ∨ c' ≠ c) → t'.operatorCall r' c' = t.operatorCall r' c')
    n t ⟨h0, fun _ _ _ _ => rfl⟩
    (by
      intro k s hk hinv
      obtain ⟨hs, hrest⟩ := hinv
      obtain ⟨B, hB, hv, hne⟩ := operatorCallAssign_lt s hr hc
        (accFrom x0 (fun k => fa k * fb k) k + fa k * fb k)
      refine ⟨B, ?_, hv, ?_⟩
      · simp [(hread k hk).1, (hread k hk).2, hs, hB]
      · intro r' c' hc' hd
        rw [hne r' c' hc' hd]
        exact hrest r' c' hc' hd)
  exact ⟨t', ht', hI⟩

theorem mulLoops_spec [Add α] [Mul α] {R C : Nat} (ra rb : Nat → Nat → Nat → Option α)
    (fa fb : Nat → Nat → Nat → α) (K : Nat) (t : BasicMat α R C) (g : Nat → Nat → α)
    (ht : ∀ r c, r < R → c < C → t.operatorCall r c = some (g r c))
    (hread : ∀ r c k, r < R → c < C → k < K →
      ra r c k = some (fa r c k) ∧ rb r c k = some (fb r c k)) :
    ∃ t', mulLoops ra rb R C K t = some t' ∧
      ∀ r c, r < R → c < C →
        t'.operatorCall r c = some (accFrom (g r c) (fun k => fa r c k * fb r c k) K) := by
  obtain ⟨t', ht', hI⟩ := forLoop_inv (fun r (t : BasicMat α R C) =>
      forLoop (fun c t =>
        forLoop (fun k t => do
          let a ← ra r c k
          let b ← rb r c k
          let old ← t.operatorCall r c
          t.operatorCallAssign r c (old + a * b)) K t) C t)
    (fun r0 s => ∀ r c, r < R → c < C → s.operatorCall r c =
      some (if r < r0 then accFrom (g r c) (fun k => fa r c k * fb r c k) K else g r c))
    R t (by intro r c hr hc; simpa using ht r c hr hc)
    (by
      intro r0 s hr0 hinv
      obtain ⟨s', hs', hI'⟩ := forLoop_inv (fun c (t : BasicMat α R C) =>
          forLoop (fun k t => do
            let a ← ra r0 c k
            let b ← rb r0 c k
            let old ← t.operatorCall r0 c
            t.operatorCallAssign r0 c (old + a * b)) K t)
        (fun c0 s' => ∀ r c, r < R → c < C → s'.operatorCall r c =
          some (if r < r0 ∨ (r = r0 ∧ c < c0) then
            accFrom (g r c) (fun k => fa r c k * fb r c k) K else g r c))
        C s (by
          intro r c hr hc
          rw [hinv r c hr hc]
          simp)
        (by
          intro c0 u hc0 hu
          have hu0 := hu r0 c0 hr0 hc0
          have hcond : ¬ (r0 < r0 ∨ (r0 = r0 ∧ c0 < c0)) := by omega
          rw [if_neg hcond] at hu0
          obtain ⟨u', hu', hval, hrest⟩ := accLoop_spec (ra r0 c0) (rb r0 c0) (fa r0 c0)
            (fb r0 c0) K r0 c0 hr0 hc0 u (g r0 c0) hu0
            (fun k hk => hread r0 c0 k hr0 hc0 hk)
          refine ⟨u', hu', ?_⟩
          intro r c hr hc
          by_cases hpos : r = r0 ∧ c = c0
          · obtain ⟨h1, h2⟩ := hpos
            subst h1; subst h2
            rw [hval, if_pos (Or.inr ⟨rfl, Nat.lt_succ_self _⟩)]
          · have hd : r ≠ r0 ∨ c ≠ c0 := by
              by_cases h1 : r = r0
              · right; intro h2; exact hpos ⟨h1, h2⟩
              · left; exact h1
            rw [hrest r c hc hd, hu r c hr hc]
            congr 1
            by_cases hA : r < r0 ∨ (r = r0 ∧ c < c0)
            · rw [if_pos hA, if_pos]
              rcases hA with hA | hA
              · left; exact hA
              · right; exact ⟨hA.1, Nat.lt_succ_of_lt hA.2⟩
            · rw [if_neg hA, if_neg]
              intro hB
              apply hA
              rcases hB with hB | hB
              · left; exact hB
              · right; refine ⟨hB.1, ?_⟩
                have : c ≠ c0 := fun h2 => hpos ⟨hB.1, h2⟩
                omega)
      refine ⟨s', hs', ?_⟩
      intro r c hr hc
      rw [hI' r c hr hc]
      congr 1
      by_cases hA : r < r0
      · rw [if_pos (Or.inl hA), if_pos (Nat.lt_succ_of_lt hA)]
      · by_cases hB : r = r0
        · subst hB
          rw [if_pos (Or.inr ⟨rfl, hc⟩), if_pos (Nat.lt_succ_self _)]
        · rw [if_neg, if_neg]
          · omega
          · omega)
  refine ⟨t', ht', ?_⟩
  intro r c hr hc
  rw [hI r c hr hc, if_pos hr]

theorem operatorCall_eq_elem [Zero α] (A : BasicMat α N M) {r c : Nat} (hr : r < N)
    (hc : c < M) : A.operatorCall r c = some (A.elem r c) := by
  obtain ⟨v, hv⟩ := operatorCall_lt A hr hc
  simp [BasicMat.elem, hv]

theorem operatorIndex_eq_lin [Zero α] (A : BasicMat α N M) {i : Nat} (h : i < N * M) :
    A.operatorIndex i = some (A.lin i) := by
  obtain ⟨v, hv⟩ := operatorIndex_lt A h
  simp [BasicMat.lin, hv]

theorem ofFn_call (f : Nat → Nat → α) {r c : Nat} (hr : r < N) (hc : c < M) :
    (BasicMat.ofFn f : BasicMat α N M).operatorCall r c = some (f r c) := by
  simp only [BasicMat.operatorCall, BasicMat.operatorIndex, BasicMat.ofFn]
  rw [List.getElem?_map, List.getElem?_range (index_lt hr hc)]
  simp [index_div hc, index_mod hc]

theorem PostMult_eq [Zero α] [Add α] [Mul α] {M2 : Nat} (A : BasicMat α N M)
    (B : BasicMat α M M2) (raw : BasicMat α N M2) :
    A.PostMult B raw = (BasicMat.construct raw).bind (fun t =>
      (mulLoops (fun r _ k => A.operatorCall r k) (fun _ c k => B.operatorCall k c)
        N M2 M t).bind (fun t => some (A, t))) := rfl

theorem PreMult_eq [Zero α] [Add α] [Mul α] {N2 : Nat} (X : BasicMat α N M)
    (L : BasicMat α N2 N) (raw : BasicMat α N2 M) :
    X.PreMult L raw = (BasicMat.construct raw).bind (fun t =>
      (mulLoops (fun r _ k => L.operatorCall r k) (fun r _ k => X.operatorCall k r)
        N2 M N t).bind (fun t => some (X, t))) := rfl

theorem PostMult_entries [Zero α] [Add α] [Mul α] {M2 : Nat} (A : BasicMat α N M)
    (B : BasicMat α M M2) (raw : BasicMat α N M2) :
    ∃ R, A.PostMult B raw = some (A, R) ∧ ∀ r c, r < N → c < M2 →
      R.operatorCall r c = some (sumTo (fun k => A.elem r k * B.elem k c) M) := by
  obtain ⟨t, ht, hz⟩ := construct_call raw
  obtain ⟨R, hR, hval⟩ := mulLoops_spec (fun r _ k => A.operatorCall r k)
    (fun _ c k => B.operatorCall k c) (fun r _ k => A.elem r k) (fun _ c k => B.elem k c)
    M t (fun _ _ => 0) hz
    (fun r c k hr hc hk => ⟨operatorCall_eq_elem A hr hk, operatorCall_eq_elem B hk hc⟩)
  refine ⟨R, ?_, ?_⟩
  · rw [PostMult_eq, ht, Option.some_bind, hR, Option.some_bind]
  · intro r c hr hc
    rw [hval r c hr hc]
    rfl

theorem PreMult_entries [Zero α] [Add α] [Mul α] {N2 : Nat} (X : BasicMat α N M)
    (L : BasicMat α N2 N) (raw : BasicMat α N2 M) (hdim : N2 ≤ M ∨ N = 0 ∨ M = 0) :
    ∃ R, X.PreMult L raw = some (X, R) ∧ ∀ r c, r < N2 → c < M →
      R.operatorCall r c = some (sumTo (fun k => L.elem r k * X.lin (k * M + r)) N) := by
  obtain ⟨t, ht, hz⟩ := construct_call raw
  obtain ⟨R, hR, hval⟩ := mulLoops_spec (fun r _ k => L.operatorCall r k)
    (fun r _ k => X.operatorCall k r) (fun r _ k => L.elem r k)
    (fun r _ k => X.lin (k * M + r))
    N t (fun _ _ => 0) hz
    (by
      intro r c k hr hc hk
      refine ⟨operatorCall_eq_elem L hr hk, ?_⟩
      have hrM : r < M := by omega
      exact operatorIndex_eq_lin X (index_lt hk hrM))
  refine ⟨R, ?_, ?_⟩
  · rw [PreMult_eq, ht, Option.some_bind, hR, Option.some_bind]
  · intro r c hr hc
    rw [hval r c hr hc]
    rfl

theorem ofFn_elem [Zero α] (f : Nat → Nat → α) {r c : Nat} (hr : r < N) (hc : c < M) :
    (BasicMat.ofFn f : BasicMat α N M).elem r c = f r c := by
  simp [BasicMat.elem, ofFn_call f hr hc]

theorem accFrom_congr [Add α] (x0 : α) (f g : Nat → α) (n : Nat)
    (h : ∀ k, k < n → f k = g k) : accFrom x0 f n = accFrom x0 g n := by
  induction n with
  | zero => rfl
  | succ n ih =>
    simp only [accFrom]
    rw [ih (fun k hk => h k (Nat.lt_succ_of_lt hk)), h n (Nat.lt_succ_self n)]

theorem sumTo_congr [Zero α] [Add α] (f g : Nat → α) (n : Nat)
    (h : ∀ k, k < n → f k = g k) : sumTo f n = sumTo g n :=
  accFrom_congr 0 f g n h

theorem forLoop_none {σ : Type} (body : Nat → σ → Option σ) (n i : Nat) (hi : i < n)
    (h : ∀ t, body i t = none) (s : σ) : forLoop body n s = none := by
  induction n with
  | zero => exact absurd hi (Nat.not_lt_zero i)
  | succ n ih =>
    simp only [forLoop]
    by_cases hin : i = n
    · subst hin
      cases forLoop body i s with
      | none => rfl
      | some t => exact h t
    · rw [ih (by omega)]
      rfl

theorem mulLoops_none [Add α] [Mul α] {R C : Nat} (ra rb : Nat → Nat → Nat → Option α)
    (K r c k : Nat) (hr : r < R) (hc : c < C) (hk : k < K)
    (hread : ra r c k = none ∨ rb r c k = none) (t : BasicMat α R C) :
    mulLoops ra rb R C K t = none := by
  unfold mulLoops
  apply forLoop_none _ R r hr
  intro t1
  apply forLoop_none _ C c hc
  intro t2
  apply forLoop_none _ K k hk
  intro t3
  rcases hread with h | h
  · simp [h]
  · cases hra : ra r c k with
    | none => simp
    | some a => simp [h]

theorem PreMult_none [Zero α] [Add α] [Mul α] {N2 : Nat} (X : BasicMat α N M)
    (L : BasicMat α N2 N) (raw : BasicMat α N2 M) (hN : 1 ≤ N) (hM : 1 ≤ M)
    (hN2 : M < N2) : X.PreMult L raw = none := by
  obtain ⟨t, ht, _⟩ := construct_spec raw
  have hidx : N * M ≤ (N - 1) * M + (N2 - 1) := by
    obtain ⟨n, rfl⟩ : ∃ n, N = n + 1 := ⟨N - 1, by omega⟩
    have : (n + 1) * M = n * M + M := by ring
    simp only [Nat.add_sub_cancel]
    omega
  have hnone := mulLoops_none (fun r _ k => L.operatorCall r k)
    (fun r _ k => X.operatorCall k r) N (N2 - 1) 0 (N - 1) (by omega) (by omega) (by omega)
    (Or.inr ((operatorIndex_eq_none_iff X _).2 hidx)) t
  rw [PreMult_eq, ht, Option.some_bind, hnone]
  rfl

theorem scale_entries [Zero α] [Mul α] (A : BasicMat α N M) (s : α) :
    ∃ R, A.operatorMulAssign s = some (A, R) ∧
      ∀ r c, r < N → c < M → R.operatorCall r c = some (A.elem r c * s) := by
  obtain ⟨R, hR, hI⟩ := forLoop_inv (fun i (t : BasicMat α N M) => do
      let old ← t.operatorIndex i
      t.operatorIndexAssign i (old * s))
    (fun i t => ∀ j, j < N * M →
      t.operatorIndex j = some (if j < i then A.lin j * s else A.lin j))
    (N * M) A
    (by intro j hj; simpa using operatorIndex_eq_lin A hj)
    (by
      intro i t hi hinv
      have hold := hinv i hi
      rw [if_neg (Nat.lt_irrefl i)] at hold
      obtain ⟨B, hB, hv, hne⟩ := operatorIndexAssign_lt t hi (A.lin i * s)
      refine ⟨B, by simp [hold, hB], ?_⟩
      intro j hj
      by_cases hji : j = i
      · subst hji
        rw [hv, if_pos (Nat.lt_succ_self j)]
      · rw [hne j hji, hinv j hj]
        congr 1
        by_cases hlt : j < i
        · rw [if_pos hlt, if_pos (Nat.lt_succ_of_lt hlt)]
        · rw [if_neg hlt, if_neg (by omega)])
  refine ⟨R, ?_, ?_⟩
  · show (forLoop _ (N * M) A).bind (fun t => some (A, t)) = some (A, R)
    rw [hR]
    rfl
  · intro r c hr hc
    have := hI _ (index_lt hr hc)
    rw [if_pos (index_lt hr hc)] at this
    exact this

theorem Transpose_entries [Zero α] (A : BasicMat α N M) (raw : BasicMat α M N) :
    ∃ T, A.Transpose raw = some (A, T) ∧
      ∀ r c, r < N → c < M → T.operatorCall c r = some (A.elem r c) := by
  obtain ⟨t, ht, _⟩ := construct_spec raw
  obtain ⟨T, hT, hI⟩ := forLoop_inv (fun r (t : BasicMat α M N) =>
      forLoop (fun c t => do
        let v ← A.operatorCall r c
        t.operatorCallAssign c r v) M t)
    (fun r0 t => ∀ r c, r < r0 → r < N → c < M → t.operatorCall c r = some (A.elem r c))
    N t (fun r c hr => absurd hr (Nat.not_lt_zero r))
    (by
      intro r0 u hr0 hinv
      obtain ⟨u', hu', hI'⟩ := forLoop_inv (fun c (t : BasicMat α M N) => do
          let v ← A.operatorCall r0 c
          t.operatorCallAssign c r0 v)
        (fun c0 t => ∀ r c, (r < r0 ∨ (r = r0 ∧ c < c0)) → r < N → c < M →
          t.operatorCall c r = some (A.elem r c))
        M u
        (by
          intro r c h hr hc
          rcases h with h | h
          · exact hinv r c h hr hc
          · exact absurd h.2 (Nat.not_lt_zero c))
        (by
          intro c0 w hc0 hw
          obtain ⟨B, hB, hv, hne⟩ := operatorCallAssign_lt w hc0 hr0 (A.elem r0 c0)
          refine ⟨B, by simp [operatorCall_eq_elem A hr0 hc0, hB], ?_⟩
          intro r c h hr hc
          by_cases hpos : c = c0 ∧ r = r0
          · obtain ⟨h1, h2⟩ := hpos
            subst h1; subst h2
            exact hv
          · have hd : c ≠ c0 ∨ r ≠ r0 := by
              by_cases h1 : c = c0
              · right; intro h2; exact hpos ⟨h1, h2⟩
              · left; exact h1
            rw [hne c r hr hd]
            apply hw r c _ hr hc
            rcases h with h | h
            · left; exact h
            · right
              refine ⟨h.1, ?_⟩
              have : c ≠ c0 := fun h2 => hpos ⟨h2, h.1⟩
              omega)
      refine ⟨u', hu', ?_⟩
      intro r c hr hrN hc
      apply hI' r c _ hrN hc
      by_cases h : r < r0
      · left; exact h
      · right; exact ⟨by omega, hc⟩)
  refine ⟨T, ?_, ?_⟩
  · show (BasicMat.construct raw).bind (fun t => (forLoop _ N t).bind
      (fun t => some (A, t))) = some (A, T)
    rw [ht, Option.some_bind, hT]
    rfl
  · intro r c hr hc
    exact hI r c hr hr hc

theorem elem_mem [Zero α] (A : BasicMat α N M) {r c : Nat} (hr : r < N) (hc : c < M) :
    A.elem r c ∈ A.m :=
  List.getElem?_mem (operatorCall_eq_elem A hr hc)

theorem sumTo_pick [Zero α] [One α] [Add α] [Mul α] (a : Nat → α) (c n : Nat)
    (h00 : (0 : α) + 0 = 0)
    (ha : ∀ k, k < n → a k * 0 = 0 ∧ a k * 1 = a k ∧ 0 + a k = a k ∧ a k + 0 = a k) :
    sumTo (fun k => a k * (if k = c then (1 : α) else 0)) n = if c < n then a c else 0 := by
  induction n with
  | zero => rfl
  | succ n ih =>
    have hrec := ih (fun k hk => ha k (Nat.lt_succ_of_lt hk))
    obtain ⟨hz, ho, hl, hr⟩ := ha n (Nat.lt_succ_self n)
    show accFrom 0 (fun k => a k * (if k = c then (1 : α) else 0)) n +
      a n * (if n = c then (1 : α) else 0) = if c < n + 1 then a c else 0
    have hrec2 : accFrom 0 (fun k => a k * (if k = c then (1 : α) else 0)) n =
        if c < n then a c else 0 := hrec
    rw [hrec2]
    by_cases hnc : n = c
    · subst hnc
      rw [if_neg (Nat.lt_irrefl n), if_pos rfl, if_pos (Nat.lt_succ_self n), ho, hl]
    · rw [if_neg hnc, hz]
      by_cases hlt : c < n
      · rw [if_pos hlt, if_pos (Nat.lt_succ_of_lt hlt)]
        exact (ha c (Nat.lt_succ_of_lt hlt)).2.2.2
      · rw [if_neg hlt, if_neg (by omega), h00]

theorem PostMult_identity [Zero α] [One α] [Add α] [Mul α] (A : BasicMat α N M)
    (raw : BasicMat α N M) (h00 : (0 : α) + 0 = 0)
    (hA : ∀ x, x ∈ A.m → x * 0 = 0 ∧ x * 1 = x ∧ 0 + x = x ∧ x + 0 = x) :
    A.PostMult (identity M) raw = some (A, A) := by
  obtain ⟨R, hR, hval⟩ := PostMult_entries A (identity M) raw
  rw [hR]
  have : R = A := by
    apply BasicMat.ext_call
    intro r c hr hc
    rw [hval r c hr hc, operatorCall_eq_elem A hr hc]
    congr 1
    rw [sumTo_congr _ (fun k => A.elem r k * (if k = c then (1 : α) else 0)) M
      (fun k hk => by rw [identity, ofFn_elem _ hk hc]),
      sumTo_pick (fun k => A.elem r k) c M h00 (fun k hk => hA _ (elem_mem A hr hk)),
      if_pos hc]
  rw [this]

theorem operatorIndexAssign_same (A : BasicMat α N M) {i : Nat} {v : α}
    (h : A.operatorIndex i = some v) : A.operatorIndexAssign i v = some A := by
  have hi : i < N * M := by
    by_contra hge
    rw [(operatorIndex_eq_none_iff A i).2 (by omega)] at h
    exact Option.noConfusion h
  obtain ⟨B, hB, hv, hne⟩ := operatorIndexAssign_lt A hi v
  rw [hB]
  congr 1
  apply BasicMat.ext_index
  intro j _
  by_cases hji : j = i
  · rw [hji, hv, h]
  · exact hne j hji

theorem assign_entries (A B : BasicMat α N M) : A.operatorAssign B = some B := by
  obtain ⟨R, hR, hI⟩ := forLoop_inv (fun i (t : BasicMat α N M) => do
      let v ← B.operatorIndex i
      t.operatorIndexAssign i v)
    (fun i t => ∀ j, j < i → t.operatorIndex j = B.operatorIndex j)
    (N * M) A (fun j hj => absurd hj (Nat.not_lt_zero j))
    (by
      intro i t hi hinv
      obtain ⟨v, hv⟩ := operatorIndex_lt B hi
      obtain ⟨C, hC, hw, hne⟩ := operatorIndexAssign_lt t hi v
      refine ⟨C, by simp [hv, hC], ?_⟩
      intro j hj
      by_cases hji : j = i
      · rw [hji, hw, hv]
      · rw [hne j hji]
        exact hinv j (by omega))
  have hRB : R = B := BasicMat.ext_index hI
  rw [hRB] at hR
  exact hR

theorem assignSelf_entries (A : BasicMat α N M) : A.operatorAssignSelf = some A := by
  obtain ⟨R, hR, hI⟩ := forLoop_inv (fun i (t : BasicMat α N M) => do
      let v ← t.operatorIndex i
      t.operatorIndexAssign i v)
    (fun _ t => t = A) (N * M) A rfl
    (by
      intro i t hi hinv
      obtain ⟨v, hv⟩ := operatorIndex_lt t hi
      exact ⟨t, by simp [hv, operatorIndexAssign_same t hv], hinv⟩)
  rw [hI] at hR
  exact hR

theorem add_entries [Zero α] [Add α] (A B : BasicMat α N M) :
    ∃ S, A.operatorAddAssign B = some S ∧
      ∀ r c, r < N → c < M → S.operatorCall r c = some (A.elem r c + B.elem r c) := by
  obtain ⟨R, hR, hI⟩ := forLoop_inv (fun i (t : BasicMat α N M) => do
      let old ← t.operatorIndex i
      let v ← B.operatorIndex i
      t.operatorIndexAssign i (old + v))
    (fun i t => ∀ j, j < N * M →
      t.operatorIndex j = some (if j < i then A.lin j + B.lin j else A.lin j))
    (N * M) A
    (by intro j hj; simpa using operatorIndex_eq_lin A hj)
    (by
      intro i t hi hinv
      have hold := hinv i hi
      rw [if_neg (Nat.lt_irrefl i)] at hold
      obtain ⟨C, hC, hv, hne⟩ := operatorIndexAssign_lt t hi (A.lin i + B.lin i)
      refine ⟨C, by simp [hold, operatorIndex_eq_lin B hi, hC], ?_⟩
      intro j hj
      by_cases hji : j = i
      · subst hji
        rw [hv, if_pos (Nat.lt_succ_self j)]
      · rw [hne j hji, hinv j hj]
        congr 1
        by_cases hlt : j < i
        · rw [if_pos hlt, if_pos (Nat.lt_succ_of_lt hlt)]
        · rw [if_neg hlt, if_neg (by omega)])
  refine ⟨R, hR, ?_⟩
  intro r c hr hc
  have := hI _ (index_lt hr hc)
  rw [if_pos (index_lt hr hc)] at this
  exact this

theorem operatorAdd_eq [Add α] (A B : BasicMat α N M) :
    operatorAdd A B = (A.operatorAddAssign B).bind (fun t => some (A, t)) := rfl

theorem join_snoc (l : List String) (x : String) :
    String.join (l ++ [x]) = String.join l ++ x := by
  simp [String.join, List.foldl_append]

theorem rowLoop_spec [Zero α] (render : α → String) (A : BasicMat α N M) (r : Nat)
    (hr : r < N) (n : Nat) (hn : n ≤ M) (s : String) :
    forLoop (fun c ss => do
      let v ← A.operatorCall r c
      pure (ss ++ render v ++ " ")) n s =
    some (s ++ String.join ((List.range n).map (fun c => render (A.elem r c) ++ " "))) := by
  induction n with
  | zero => simp [forLoop, String.join]
  | succ n ih =>
    simp only [forLoop]
    rw [ih (by omega), Option.some_bind, operatorCall_eq_elem A hr (by omega),
      List.range_succ, List.map_append, List.map_singleton, join_snoc]
    simp [String.append_assoc]

theorem ToString_text [Zero α] (render : α → String) (A : BasicMat α N M) :
    A.ToString render = some (A, displayText render A) := by
  have hrows : ∀ n, n ≤ N → forLoop (fun r ss => do
      let ss ← forLoop (fun c ss => do
        let v ← A.operatorCall r c
        pure (ss ++ render v ++ " ")) M ss
      pure (ss ++ "\n")) n "" =
      some (String.join ((List.range n).map (fun r =>
        String.join ((List.range M).map (fun c => render (A.elem r c) ++ " ")) ++ "\n"))) := by
    intro n
    induction n with
    | zero => intro _; rfl
    | succ n ih =>
      intro hn
      simp only [forLoop]
      rw [ih (by omega), Option.some_bind, rowLoop_spec render A n (by omega) M (Nat.le_refl M),
        List.range_succ, List.map_append, List.map_singleton, join_snoc]
      simp [String.append_assoc]
  show (forLoop _ N "").bind (fun ss => some (A, ss)) = some (A, displayText render A)
  rw [hrows N (Nat.le_refl N)]
  rfl

theorem count_join_range (ch : Char) (f : Nat → String) (n k : Nat)
    (h : ∀ i, i < n → (f i).data.count ch = k) :
    (String.join ((List.range n).map f)).data.count ch = n * k := by
  induction n with
  | zero => simp [String.join]
  | succ n ih =>
    rw [List.range_succ, List.map_append, List.map_singleton, join_snoc, String.data_append,
      List.count_append, ih (fun i hi => h i (Nat.lt_succ_of_lt hi)), h n (Nat.lt_succ_self n)]
    ring

theorem displayText_newlines [Zero α] (render : α → String) (A : BasicMat α N M)
    (hnl : ∀ x, x ∈ A.m → '\n' ∉ (render x).data) :
    (displayText render A).data.count '\n' = N := by
  unfold displayText
  rw [count_join_range '\n' _ N 1, Nat.mul_one]
  intro r hr
  rw [String.data_append, List.count_append, count_join_range '\n' _ M 0, Nat.mul_zero]
  · rfl
  · intro c hc
    rw [String.data_append, List.count_append,
      List.count_eq_zero_of_not_mem (hnl _ (elem_mem A hr hc))]
    rfl

theorem elem_of_call [Zero α] (A : BasicMat α N M) {r c : Nat} {v : α}
    (h : A.operatorCall r c = some v) : A.elem r c = v := by
  simp [BasicMat.elem, h]

theorem add_comm_entries [Zero α] [Add α] (A B : BasicMat α N M)
    (hcomm : ∀ x, x ∈ A.m → ∀ y, y ∈ B.m → x + y = y + x) :
    ∃ S, operatorAdd A B = some (A, S) ∧ operatorAdd B A = some (B, S) := by
  obtain ⟨S, hS, hval⟩ := add_entries A B
  obtain ⟨S', hS', hval'⟩ := add_entries B A
  have : S' = S := by
    apply BasicMat.ext_call
    intro r c hr hc
    rw [hval r c hr hc, hval' r c hr hc, hcomm _ (elem_mem A hr hc) _ (elem_mem B hr hc)]
  rw [this] at hS'
  exact ⟨S, by rw [operatorAdd_eq, hS]; rfl, by rw [operatorAdd_eq, hS']; rfl⟩

theorem add_zero_entries [Zero α] [Add α] (A raw : BasicMat α N M)
    (hzero : ∀ x, x ∈ A.m → x + 0 = x) :
    ∃ Z, BasicMat.construct raw = some Z ∧ operatorAdd A Z = some (A, A) := by
  obtain ⟨Z, hZ, hz⟩ := construct_call raw
  obtain ⟨S, hS, hval⟩ := add_entries A Z
  have : S = A := by
    apply BasicMat.ext_call
    intro r c hr hc
    rw [hval r c hr hc, elem_of_call Z (hz r c hr hc), hzero _ (elem_mem A hr hc),
      operatorCall_eq_elem A hr hc]
  rw [this] at hS
  exact ⟨Z, hZ, by rw [operatorAdd_eq, hS]; rfl⟩

theorem PostMult_Transpose_entries [Zero α] [Add α] [Mul α] {M2 : Nat}
    (A : BasicMat α N M) (B : BasicMat α M M2) (raw1 : BasicMat α N M2)
    (raw2 : BasicMat α M2 N) (raw3 : BasicMat α M2 M) (raw4 : BasicMat α M N)
    (raw5 : BasicMat α M2 N)
    (hcomm : ∀ x, x ∈ A.m → ∀ y, y ∈ B.m → x * y = y * x) :
    ∃ P Pt Bt At, A.PostMult B raw1 = some (A, P) ∧ P.Transpose raw2 = some (P, Pt) ∧
      B.Transpose raw3 = some (B, Bt) ∧ A.Transpose raw4 = some (A, At) ∧
      Bt.PostMult At raw5 = some (Bt, Pt) := by
  obtain ⟨P, hP, hPv⟩ := PostMult_entries A B raw1
  obtain ⟨Pt, hPt, hPtv⟩ := Transpose_entries P raw2
  obtain ⟨Bt, hBt, hBtv⟩ := Transpose_entries B raw3
  obtain ⟨At, hAt, hAtv⟩ := Transpose_entries A raw4
  obtain ⟨Q, hQ, hQv⟩ := PostMult_entries Bt At raw5
  have : Q = Pt := by
    apply BasicMat.ext_call
    intro c r hc hr
    rw [hQv c r hc hr, hPtv r c hr hc, elem_of_call P (hPv r c hr hc)]
    congr 1
    apply sumTo_congr
    intro k hk
    rw [elem_of_call Bt (hBtv k c hk hc), elem_of_call At (hAtv r k hr hk),
      hcomm _ (elem_mem A hr hk) _ (elem_mem B hk hc)]
  rw [this] at hQ
  exact ⟨P, Pt, Bt, At, hP, hPt, hBt, hAt, hQ⟩

/-! ## The matrix products -/

/-- C1. For every `N × M` matrix `A` and `M × M2` matrix `B`, `A.PostMult(B)` returns a
matrix `R` (and leaves `A` as it was) whose element `(r, c)`, for every `r < N` and
`c < M2`, is the sum over `k` in `[0, M)` of `A(r, k) * B(k, c)`, accumulated from `0`
in increasing `k`. -/
theorem PostMult_is_product [Zero α] [Add α] [Mul α] {M2 : Nat} (A : BasicMat α N M)
    (B : BasicMat α M M2) (raw : BasicMat α N M2) :
    ∃ R, A.PostMult B raw = some (A, R) ∧ ∀ r c, r < N → c < M2 →
      R.operatorCall r c = some (sumTo (fun k => A.elem r k * B.elem k c) M) :=
  PostMult_entries A B raw

/-- The example of C1: `[[1,2,3],[4,5,6]] * [[7,8],[9,10],[11,12]]` is
`[[58,64],[139,154]]`. -/
theorem PostMult_is_product_witness :
    (⟨[1, 2, 3, 4, 5, 6], rfl⟩ : BasicMat Int 2 3).PostMult
      (⟨[7, 8, 9, 10, 11, 12], rfl⟩ : BasicMat Int 3 2) ⟨[9, 9, 9, 9], rfl⟩ =
      some (⟨[1, 2, 3, 4, 5, 6], rfl⟩, ⟨[58, 64, 139, 154], rfl⟩) := by
  obtain ⟨R, hR, hval⟩ := PostMult_is_product (⟨[1, 2, 3, 4, 5, 6], rfl⟩ : BasicMat Int 2 3)
    (⟨[7, 8, 9, 10, 11, 12], rfl⟩ : BasicMat Int 3 2) ⟨[9, 9, 9, 9], rfl⟩
  rw [hR]
  have : R = ⟨[58, 64, 139, 154], rfl⟩ := by
    apply BasicMat.ext_call
    intro r c hr hc
    rw [hval r c hr hc]
    interval_cases r <;> interval_cases c <;> decide
  rw [this]

/-- C2 (failing input). At `X = [[1,2],[3,4]]` and `L = [[1,0],[0,1]]` the member
`PreMult` returns `[[1,1],[4,4]]`, whereas the product `L * X` is `[[1,2],[3,4]]`. -/
theorem PreMult_not_product :
    (⟨[1, 2, 3, 4], rfl⟩ : BasicMat Int 2 2).PreMult
      (⟨[1, 0, 0, 1], rfl⟩ : BasicMat Int 2 2) ⟨[7, 7, 7, 7], rfl⟩ =
      some (⟨[1, 2, 3, 4], rfl⟩, ⟨[1, 1, 4, 4], rfl⟩) ∧
    trueProduct (⟨[1, 0, 0, 1], rfl⟩ : BasicMat Int 2 2)
      (⟨[1, 2, 3, 4], rfl⟩ : BasicMat Int 2 2) = ⟨[1, 2, 3, 4], rfl⟩ := by
  decide

/-- C3 as stated fails: for the `1 × 1` receiver `X = [[5]]` and the `2 × 1` operand
`L = [[1],[1]]` the read `(*this)(0, 1)` has linear index `1`, outside the array, so
`PreMult` computes no value at all. -/
theorem PreMult_computes_counterexample :
    ¬ ∃ R, (⟨[5], rfl⟩ : BasicMat Int 1 1).PreMult (⟨[1, 1], rfl⟩ : BasicMat Int 2 1)
        ⟨[0, 0], rfl⟩ = some (⟨[5], rfl⟩, R) ∧
      ∀ r c, r < 2 → c < 1 → R.operatorCall r c = some (sumTo (fun k =>
        (⟨[1, 1], rfl⟩ : BasicMat Int 2 1).elem r k *
          (⟨[5], rfl⟩ : BasicMat Int 1 1).lin (k * 1 + r)) 1) := by
  rintro ⟨R, hR, _⟩
  have hnone : (⟨[5], rfl⟩ : BasicMat Int 1 1).PreMult (⟨[1, 1], rfl⟩ : BasicMat Int 2 1)
      ⟨[0, 0], rfl⟩ = none := by decide
  rw [hnone] at hR
  exact Option.noConfusion hR

/-- C3 (amended). Whenever every read of the receiver is in range (`N2 ≤ M`, or `N = 0`,
or `M = 0`), `X.PreMult(L)` returns a matrix `R` (and leaves `X` as it was) whose
element `(r, c)`, for `r < N2` and `c < M`, is the sum over `k` in `[0, N)` of
`L(r, k)` times the element of `X` at linear index `k * M + r`; the column `c` is not
used, so all elements of a row of `R` are equal. -/
theorem PreMult_computes [Zero α] [Add α] [Mul α] {N2 : Nat} (X : BasicMat α N M)
    (L : BasicMat α N2 N) (raw : BasicMat α N2 M) (hdim : N2 ≤ M ∨ N = 0 ∨ M = 0) :
    ∃ R, X.PreMult L raw = some (X, R) ∧
      (∀ r c, r < N2 → c < M →
        R.operatorCall r c = some (sumTo (fun k => L.elem r k * X.lin (k * M + r)) N)) ∧
      (∀ r c c', r < N2 → c < M → c' < M → R.operatorCall r c = R.operatorCall r c') := by
  obtain ⟨R, hR, hval⟩ := PreMult_entries X L raw hdim
  refine ⟨R, hR, hval, ?_⟩
  intro r c c' hr hc hc'
  rw [hval r c hr hc, hval r c' hr hc']

/-- C3 (amended), at `X = [[1,2],[3,4]]`, `L = [[1,0],[0,1]]`: the result is
`[[1,1],[4,4]]`. -/
theorem PreMult_computes_witness :
    (2 ≤ 2 ∨ 2 = 0 ∨ 2 = 0) ∧
    (⟨[1, 2, 3, 4], rfl⟩ : BasicMat Int 2 2).PreMult
      (⟨[1, 0, 0, 1], rfl⟩ : BasicMat Int 2 2) ⟨[7, 7, 7, 7], rfl⟩ =
      some (⟨[1, 2, 3, 4], rfl⟩, ⟨[1, 1, 4, 4], rfl⟩) := by
  refine ⟨Or.inl (Nat.le_refl 2), ?_⟩
  obtain ⟨R, hR, hval, _⟩ := PreMult_computes (⟨[1, 2, 3, 4], rfl⟩ : BasicMat Int 2 2)
    (⟨[1, 0, 0, 1], rfl⟩ : BasicMat Int 2 2) ⟨[7, 7, 7, 7], rfl⟩ (Or.inl (Nat.le_refl 2))
  rw [hR]
  have : R = ⟨[1, 1, 4, 4], rfl⟩ := by
    apply BasicMat.ext_call
    intro r c hr hc
    rw [hval r c hr hc]
    interval_cases r <;> interval_cases c <;> decide
  rw [this]

/-- C5 (failing input). After `A *= 3` with `A = [[1, 2]]` the receiver is still
`[[1, 2]]`: the member scales a copy and returns it, `[[3, 6]]`, so the elements of the
receiver have not been multiplied by `3` as an in-place `operator*=` would have done
(the sibling `operator+=` does update its receiver). -/
theorem operatorMulAssign_not_in_place :
    (⟨[1, 2], rfl⟩ : BasicMat Int 1 2).operatorMulAssign 3 =
      some (⟨[1, 2], rfl⟩, ⟨[3, 6], rfl⟩) ∧
    (⟨[1, 2], rfl⟩ : BasicMat Int 1 2).operatorAddAssign ⟨[10, 20], rfl⟩ =
      some ⟨[11, 22], rfl⟩ ∧
    ¬ ∃ A' R, (⟨[1, 2], rfl⟩ : BasicMat Int 1 2).operatorMulAssign 3 = some (A', R) ∧
      ∀ r c, r < 1 → c < 2 →
        A'.operatorCall r c = some ((⟨[1, 2], rfl⟩ : BasicMat Int 1 2).elem r c * 3) := by
  refine ⟨by decide, by decide, ?_⟩
  rintro ⟨A', R, h, hall⟩
  have hv : (⟨[1, 2], rfl⟩ : BasicMat Int 1 2).operatorMulAssign 3 =
      some (⟨[1, 2], rfl⟩, ⟨[3, 6], rfl⟩) := by decide
  rw [hv] at h
  have hA : (⟨[1, 2], rfl⟩ : BasicMat Int 1 2) = A' := (Prod.mk.inj (Option.some.inj h)).1
  have h00 := hall 0 0 (by decide) (by decide)
  rw [← hA] at h00
  revert h00
  decide

/-- C6. For every `N × M` matrix `A` and scalar `s`, `A * s` and `s * A` return the same
new matrix `R`, with `R(r, c) = A(r, c) * s` for every `r < N` and `c < M`; the matrix
passed in is the same after either call. -/
theorem scale_either_side [Zero α] [Mul α] (A : BasicMat α N M) (s : α) :
    ∃ R, operatorMul A s = some (A, R) ∧ operatorMulLeft s A = some (A, R) ∧
      ∀ r c, r < N → c < M → R.operatorCall r c = some (A.elem r c * s) := by
  obtain ⟨R, hR, hval⟩ := scale_entries A s
  exact ⟨R, hR, hR, hval⟩

/-- C6 at `A = [[1, 2], [3, 4]]` and `s = 5`: both products are `[[5, 10], [15, 20]]`. -/
theorem scale_either_side_witness :
    operatorMul (⟨[1, 2, 3, 4], rfl⟩ : BasicMat Int 2 2) 5 =
      some (⟨[1, 2, 3, 4], rfl⟩, ⟨[5, 10, 15, 20], rfl⟩) ∧
    operatorMulLeft 5 (⟨[1, 2, 3, 4], rfl⟩ : BasicMat Int 2 2) =
      some (⟨[1, 2, 3, 4], rfl⟩, ⟨[5, 10, 15, 20], rfl⟩) := by
  obtain ⟨R, hR, hL, hval⟩ := scale_either_side (⟨[1, 2, 3, 4], rfl⟩ : BasicMat Int 2 2) 5
  rw [hR, hL]
  have : R = ⟨[5, 10, 15, 20], rfl⟩ := by
    apply BasicMat.ext_call
    intro r c hr hc
    rw [hval r c hr hc]
    interval_cases r <;> interval_cases c <;> decide
  rw [this]
  exact ⟨rfl, rfl⟩

/-- C7. For every `N × M` matrix `A`, `A.Transpose()` returns an `M × N` matrix `T` with
`T(c, r) = A(r, c)` for every `r < N` and `c < M`, and `A` is the same after the call. -/
theorem Transpose_spec [Zero α] (A : BasicMat α N M) (raw : BasicMat α M N) :
    ∃ T, A.Transpose raw = some (A, T) ∧
      ∀ r c, r < N → c < M → T.operatorCall c r = some (A.elem r c) :=
  Transpose_entries A raw

/-- C7 at `A = [[1, 2, 3], [4, 5, 6]]`: the transpose is `[[1, 4], [2, 5], [3, 6]]`. -/
theorem Transpose_spec_witness :
    (⟨[1, 2, 3, 4, 5, 6], rfl⟩ : BasicMat Int 2 3).Transpose ⟨[9, 9, 9, 9, 9, 9], rfl⟩ =
      some (⟨[1, 2, 3, 4, 5, 6], rfl⟩, ⟨[1, 4, 2, 5, 3, 6], rfl⟩) := by
  obtain ⟨T, hT, hval⟩ := Transpose_spec (⟨[1, 2, 3, 4, 5, 6], rfl⟩ : BasicMat Int 2 3)
    ⟨[9, 9, 9, 9, 9, 9], rfl⟩
  rw [hT]
  have : T = ⟨[1, 4, 2, 5, 3, 6], rfl⟩ := by
    apply BasicMat.ext_call
    intro c r hc hr
    rw [hval r c hr hc]
    interval_cases r <;> interval_cases c <;> decide
  rw [this]

/-- C8. Transposing twice gives the matrix back: for every `N × M` matrix `A`,
`A.Transpose()` returns some `T` and `T.Transpose()` returns `A` itself, all `N * M`
stored values included. -/
theorem Transpose_Transpose [Zero α] (A : BasicMat α N M) (raw1 : BasicMat α M N)
    (raw2 : BasicMat α N M) :
    ∃ T, A.Transpose raw1 = some (A, T) ∧ T.Transpose raw2 = some (T, A) := by
  obtain ⟨T, hT, hval⟩ := Transpose_entries A raw1
  obtain ⟨U, hU, hval2⟩ := Transpose_entries T raw2
  refine ⟨T, hT, ?_⟩
  rw [hU]
  have : U = A := by
    apply BasicMat.ext_call
    intro r c hr hc
    rw [hval2 c r hc hr, operatorCall_eq_elem A hr hc]
    have h1 := hval r c hr hc
    rw [operatorCall_eq_elem T hc hr] at h1
    exact h1
  rw [this]

/-! ## The identity and the multiplication operators -/

/-- C9 as stated fails in `float` arithmetic: for `A = [[∞, 1]]` and the `2 × 2` identity
`I`, `A.PostMult(I)` is `[[∞, NaN]]`, because `0 + ∞ * 0 + 1 * 1` is NaN; it is not `A`. -/
theorem PostMult_identity_counterexample :
    (⟨[Flt.inf false, Flt.num 1], rfl⟩ : BasicMat Flt 1 2).PostMult (identity 2)
      ⟨[Flt.num 0, Flt.num 0], rfl⟩ =
      some (⟨[Flt.inf false, Flt.num 1], rfl⟩, ⟨[Flt.inf false, Flt.nan], rfl⟩) ∧
    ¬ ((⟨[Flt.inf false, Flt.num 1], rfl⟩ : BasicMat Flt 1 2).PostMult (identity 2)
      ⟨[Flt.num 0, Flt.num 0], rfl⟩ =
      some (⟨[Flt.inf false, Flt.num 1], rfl⟩, ⟨[Flt.inf false, Flt.num 1], rfl⟩)) := by
  decide

/-- C9 (amended). For every `N × M` matrix `A` whose elements `x` all satisfy `x * 0 = 0`,
`x * 1 = x`, `0 + x = x` and `x + 0 = x` (and with `0 + 0 = 0`), `A.PostMult(I)` returns
`A`, where `I` is the `M × M` matrix with `1` on the diagonal and `0` elsewhere; `A` is
the same after the call. -/
theorem PostMult_identity_of_laws [Zero α] [One α] [Add α] [Mul α] (A : BasicMat α N M)
    (raw : BasicMat α N M) (h00 : (0 : α) + 0 = 0)
    (hA : ∀ x, x ∈ A.m → x * 0 = 0 ∧ x * 1 = x ∧ 0 + x = x ∧ x + 0 = x) :
    A.PostMult (identity M) raw = some (A, A) :=
  PostMult_identity A raw h00 hA

/-- C9 (amended) at the example of the claim: `[[1,2],[3,4]]` times `[[1,0],[0,1]]` is
`[[1,2],[3,4]]`. -/
theorem PostMult_identity_of_laws_witness :
    ((0 : Int) + 0 = 0) ∧
    (∀ x, x ∈ [(1 : Int), 2, 3, 4] → x * 0 = 0 ∧ x * 1 = x ∧ 0 + x = x ∧ x + 0 = x) ∧
    (⟨[1, 2, 3, 4], rfl⟩ : BasicMat Int 2 2).PostMult (identity 2) ⟨[9, 9, 9, 9], rfl⟩ =
      some (⟨[1, 2, 3, 4], rfl⟩, ⟨[1, 2, 3, 4], rfl⟩) :=
  ⟨by decide, by decide,
    PostMult_identity_of_laws (⟨[1, 2, 3, 4], rfl⟩ : BasicMat Int 2 2) ⟨[9, 9, 9, 9], rfl⟩
      (by decide) (by decide)⟩

/-- C10. For every `N × M` matrix `A` and `M × M2` matrix `B`, the matrix `operator*=`
and the matrix `operator*` return exactly what `A.PostMult(B)` returns, a result exists,
and the left operand is the same after the call; `B` is passed by reference to `const`. -/
theorem operatorMul_is_PostMult [Zero α] [Add α] [Mul α] {M2 : Nat} (A : BasicMat α N M)
    (B : BasicMat α M M2) (raw : BasicMat α N M2) :
    A.operatorMulAssignMat B raw = A.PostMult B raw ∧
    operatorMulMat A B raw = A.PostMult B raw ∧
    ∃ R, A.PostMult B raw = some (A, R) := by
  obtain ⟨R, hR, _⟩ := PostMult_entries A B raw
  exact ⟨rfl, rfl, R, hR⟩

/-! ## Addition -/

/-- C11. For all `N × M` matrices `A` and `B`, `A + B` returns a new matrix `S` with
`S(r, c) = A(r, c) + B(r, c)` for every `r < N` and `c < M` and leaves the matrix passed
in as it was, and `A += B` leaves the receiver holding that same `S`; `B` is passed by
reference to `const`. -/
theorem add_elementwise [Zero α] [Add α] (A B : BasicMat α N M) :
    ∃ S, operatorAdd A B = some (A, S) ∧ A.operatorAddAssign B = some S ∧
      ∀ r c, r < N → c < M → S.operatorCall r c = some (A.elem r c + B.elem r c) := by
  obtain ⟨S, hS, hval⟩ := add_entries A B
  exact ⟨S, by rw [operatorAdd_eq, hS]; rfl, hS, hval⟩

/-- C11 at `[[1, 2], [3, 4]] + [[10, 20], [30, 40]]`: the sum is
`[[11, 22], [33, 44]]`. -/
theorem add_elementwise_witness :
    operatorAdd (⟨[1, 2, 3, 4], rfl⟩ : BasicMat Int 2 2) ⟨[10, 20, 30, 40], rfl⟩ =
      some (⟨[1, 2, 3, 4], rfl⟩, ⟨[11, 22, 33, 44], rfl⟩) ∧
    (⟨[1, 2, 3, 4], rfl⟩ : BasicMat Int 2 2).operatorAddAssign ⟨[10, 20, 30, 40], rfl⟩ =
      some ⟨[11, 22, 33, 44], rfl⟩ := by
  obtain ⟨S, hS, hS', hval⟩ := add_elementwise (⟨[1, 2, 3, 4], rfl⟩ : BasicMat Int 2 2)
    ⟨[10, 20, 30, 40], rfl⟩
  rw [hS, hS']
  have : S = ⟨[11, 22, 33, 44], rfl⟩ := by
    apply BasicMat.ext_call
    intro r c hr hc
    rw [hval r c hr hc]
    interval_cases r <;> interval_cases c <;> decide
  rw [this]
  exact ⟨rfl, rfl⟩

/-- C12. For all `N × M` matrices `A` and `B` whose elements add commutatively (as the
elements of type `float` do), `A + B` and `B + A` return the same matrix. -/
theorem add_commutative [Zero α] [Add α] (A B : BasicMat α N M)
    (hcomm : ∀ x, x ∈ A.m → ∀ y, y ∈ B.m → x + y = y + x) :
    ∃ S, operatorAdd A B = some (A, S) ∧ operatorAdd B A = some (B, S) :=
  add_comm_entries A B hcomm

/-- C12 at `A = [[∞, NaN, 1]]` and `B = [[-∞, 2, 3]]`. -/
theorem add_commutative_witness :
    (∀ x, x ∈ [Flt.inf false, Flt.nan, Flt.num 1] →
      ∀ y, y ∈ [Flt.inf true, Flt.num 2, Flt.num 3] → x + y = y + x) ∧
    ∃ S, operatorAdd (⟨[Flt.inf false, Flt.nan, Flt.num 1], rfl⟩ : BasicMat Flt 1 3)
        ⟨[Flt.inf true, Flt.num 2, Flt.num 3], rfl⟩ =
        some (⟨[Flt.inf false, Flt.nan, Flt.num 1], rfl⟩, S) ∧
      operatorAdd (⟨[Flt.inf true, Flt.num 2, Flt.num 3], rfl⟩ : BasicMat Flt 1 3)
        ⟨[Flt.inf false, Flt.nan, Flt.num 1], rfl⟩ =
        some (⟨[Flt.inf true, Flt.num 2, Flt.num 3], rfl⟩, S) :=
  ⟨by decide, add_commutative _ _ (by decide)⟩

/-- C13. For every `N × M` matrix `A` whose elements `x` satisfy `x + 0 = x` (as the
elements of type `float` do, up to the sign of zero), adding the freshly constructed
matrix returns `A`: `A + BasicMat()` is `A`. -/
theorem add_construct [Zero α] [Add α] (A raw : BasicMat α N M)
    (hzero : ∀ x, x ∈ A.m → x + 0 = x) :
    ∃ Z, BasicMat.construct raw = some Z ∧ operatorAdd A Z = some (A, A) :=
  add_zero_entries A raw hzero

/-- C13 at `A = [[∞, NaN, 3]]`. -/
theorem add_construct_witness :
    (∀ x, x ∈ [Flt.inf false, Flt.nan, Flt.num 3] → x + 0 = x) ∧
    ∃ Z, BasicMat.construct (⟨[Flt.num 7, Flt.num 7, Flt.num 7], rfl⟩ : BasicMat Flt 1 3) =
        some Z ∧
      operatorAdd (⟨[Flt.inf false, Flt.nan, Flt.num 3], rfl⟩ : BasicMat Flt 1 3) Z =
        some (⟨[Flt.inf false, Flt.nan, Flt.num 3], rfl⟩,
          ⟨[Flt.inf false, Flt.nan, Flt.num 3], rfl⟩) :=
  ⟨by decide, add_construct _ _ (by decide)⟩

/-- C15. `ToString` of an `N × M` matrix returns the concatenation, for `r = 0, ..., N - 1`,
of (for `c = 0, ..., M - 1`, the text of element `(r, c)` followed by one space) followed
by a newline, and leaves the matrix as it was; when no element text contains a newline
the output has exactly `N` newlines, one at the end of each row. -/
theorem ToString_spec [Zero α] (render : α → String) (A : BasicMat α N M) :
    A.ToString render = some (A, displayText render A) ∧
    ((∀ x, x ∈ A.m → '\n' ∉ (render x).data) →
      (displayText render A).data.count '\n' = N) :=
  ⟨ToString_text render A, displayText_newlines render A⟩

/-- C15 at the `2 × 2` zero matrix: the text is `"0 0 \n0 0 \n"`, with two newlines. -/
theorem ToString_spec_witness :
    (∀ x, x ∈ [(0 : Int), 0, 0, 0] → '\n' ∉ (toString x).data) ∧
    (⟨[0, 0, 0, 0], rfl⟩ : BasicMat Int 2 2).ToString toString =
      some (⟨[0, 0, 0, 0], rfl⟩, "0 0 \n0 0 \n") ∧
    ("0 0 \n0 0 \n" : String).data.count '\n' = 2 := by
  have h := ToString_spec toString (⟨[0, 0, 0, 0], rfl⟩ : BasicMat Int 2 2)
  have htext : displayText toString (⟨[0, 0, 0, 0], rfl⟩ : BasicMat Int 2 2) =
      "0 0 \n0 0 \n" := by decide
  rw [htext] at h
  exact ⟨by decide, h.1, h.2 (by decide)⟩

/-- C16. Element access is row-major: for `r < N` and `c < M`, `operator()(r, c)` is
`operator[](r * M + c)` for reading and for writing; after writing `v` at `(r, c)` both
accessors read `v` there, and every other element `(r', c')` of the matrix is as it
was. -/
theorem row_major_access (A : BasicMat α N M) (r c : Nat) (v : α) (hr : r < N)
    (hc : c < M) :
    A.operatorCall r c = A.operatorIndex (r * M + c) ∧
    A.operatorCallAssign r c v = A.operatorIndexAssign (r * M + c) v ∧
    (∃ x, A.operatorCall r c = some x) ∧
    ∃ B, A.operatorCallAssign r c v = some B ∧
      B.operatorCall r c = some v ∧ B.operatorIndex (r * M + c) = some v ∧
      ∀ r' c', r' < N → c' < M → (r' ≠ r ∨ c' ≠ c) →
        B.operatorCall r' c' = A.operatorCall r' c' := by
  obtain ⟨B, hB, hv, hne⟩ := operatorCallAssign_lt A hr hc v
  exact ⟨rfl, rfl, operatorCall_lt A hr hc, B, hB, hv, hv,
    fun r' c' _ hc' hd => hne r' c' hc' hd⟩

/-- C16 at `A = [[1, 2, 3], [4, 5, 6]]`: writing `9` at `(1, 0)` writes linear index `3`. -/
theorem row_major_access_witness :
    (1 < 2 ∧ 0 < 3) ∧
    (⟨[1, 2, 3, 4, 5, 6], rfl⟩ : BasicMat Int 2 3).operatorCallAssign 1 0 9 =
      some ⟨[1, 2, 3, 9, 5, 6], rfl⟩ := by
  refine ⟨by decide, ?_⟩
  obtain ⟨_, h2, _, _⟩ := row_major_access (⟨[1, 2, 3, 4, 5, 6], rfl⟩ : BasicMat Int 2 3)
    1 0 9 (by decide) (by decide)
  rw [h2]
  decide

/-- C17. For every `N` and `M`, whatever the storage held before, the default constructor
returns a matrix in which each of the `N * M` elements is `0`. -/
theorem construct_zero [Zero α] (raw : BasicMat α N M) :
    ∃ Z, BasicMat.construct raw = some Z ∧
      (∀ i, i < N * M → Z.operatorIndex i = some 0) ∧
      (∀ r c, r < N → c < M → Z.operatorCall r c = some 0) := by
  obtain ⟨Z, hZ, h⟩ := construct_spec raw
  exact ⟨Z, hZ, h, fun r c hr hc => h _ (index_lt hr hc)⟩

/-- C17 at a `2 × 3` array holding `[5, -1, 7, 7, 2, 9]` before construction. -/
theorem construct_zero_witness :
    BasicMat.construct (⟨[5, -1, 7, 7, 2, 9], rfl⟩ : BasicMat Int 2 3) =
      some ⟨[0, 0, 0, 0, 0, 0], rfl⟩ := by
  obtain ⟨Z, hZ, hval, _⟩ := construct_zero (⟨[5, -1, 7, 7, 2, 9], rfl⟩ : BasicMat Int 2 3)
  rw [hZ]
  have : Z = ⟨[0, 0, 0, 0, 0, 0], rfl⟩ := by
    apply BasicMat.ext_index
    intro i hi
    rw [hval i hi]
    have hi6 : i < 6 := hi
    interval_cases i <;> rfl
  rw [this]

/-- C18. `operator=` leaves the receiver equal to `other` in all `N * M` elements (`other`
is passed by reference to `const`), and the self-assignment `A = A` leaves `A` as it
was. -/
theorem assign_spec (A B : BasicMat α N M) :
    A.operatorAssign B = some B ∧ A.operatorAssignSelf = some A :=
  ⟨assign_entries A B, assignSelf_entries A⟩

/-! ## Range of the accesses and the transpose of a product -/

/-- C19. For `N ≥ 1`, `M ≥ 1`, `N2 ≥ 1`: all reads `(*this)(k, r)` (`k < N`, `r < N2`) that
`X.PreMult(L)` makes of its `N × M` receiver have a linear index `k * M + r` below
`N * M` if and only if `N2 ≤ M`, and `PreMult` returns a result exactly then; when
`N2 > M` the read at `k = N - 1`, `r = N2 - 1` has index at least `N * M` and is out of
range. `PostMult` and `Transpose` always return: all their accesses are in range. -/
theorem PreMult_range [Zero α] [Add α] [Mul α] {N2 M2 : Nat} (X : BasicMat α N M)
    (L : BasicMat α N2 N) (raw : BasicMat α N2 M) (B : BasicMat α M M2)
    (raw2 : BasicMat α N M2) (raw3 : BasicMat α M N)
    (hN : 1 ≤ N) (hM : 1 ≤ M) (hN2 : 1 ≤ N2) :
    ((∀ k r, k < N → r < N2 → k * M + r < N * M ∧ X.operatorCall k r ≠ none) ↔ N2 ≤ M) ∧
    ((∃ R, X.PreMult L raw = some (X, R)) ↔ N2 ≤ M) ∧
    (M < N2 → N * M ≤ (N - 1) * M + (N2 - 1) ∧ X.operatorCall (N - 1) (N2 - 1) = none ∧
      X.PreMult L raw = none) ∧
    (∃ R, X.PostMult B raw2 = some (X, R)) ∧
    (∃ T, X.Transpose raw3 = some (X, T)) := by
  have hidx : M < N2 → N * M ≤ (N - 1) * M + (N2 - 1) := by
    intro hlt
    obtain ⟨n, rfl⟩ : ∃ n, N = n + 1 := ⟨N - 1, by omega⟩
    have : (n + 1) * M = n * M + M := by ring
    simp only [Nat.add_sub_cancel]
    omega
  refine ⟨⟨?_, ?_⟩, ⟨?_, ?_⟩, ?_, ?_, ?_⟩
  · intro h
    by_contra hgt
    have h1 := (h (N - 1) (N2 - 1) (by omega) (by omega)).1
    have h2 := hidx (by omega)
    omega
  · intro hle k r hk hr
    have hlt : k * M + r < N * M := index_lt hk (by omega)
    refine ⟨hlt, ?_⟩
    obtain ⟨v, hv⟩ := operatorIndex_lt X hlt
    intro hnone
    rw [BasicMat.operatorCall, hv] at hnone
    exact Option.noConfusion hnone
  · rintro ⟨R, hR⟩
    by_contra hgt
    rw [PreMult_none X L raw hN hM (by omega)] at hR
    exact Option.noConfusion hR
  · intro hle
    obtain ⟨R, hR, _⟩ := PreMult_entries X L raw (Or.inl hle)
    exact ⟨R, hR⟩
  · intro hlt
    exact ⟨hidx hlt, (operatorIndex_eq_none_iff X _).2 (hidx hlt),
      PreMult_none X L raw hN hM hlt⟩
  · obtain ⟨R, hR, _⟩ := PostMult_entries X B raw2
    exact ⟨R, hR⟩
  · obtain ⟨T, hT, _⟩ := Transpose_entries X raw3
    exact ⟨T, hT⟩

/-- C19 at a `1 × 1` receiver and a `2 × 1` left operand: the read `(*this)(0, 1)` has
linear index `1`, outside the one-element array, and `PreMult` returns nothing. -/
theorem PreMult_range_witness :
    (1 ≤ 1 ∧ 1 ≤ 1 ∧ 1 ≤ 2 ∧ 1 < 2) ∧
    (1 * 1 ≤ (1 - 1) * 1 + (2 - 1) ∧
      (⟨[5], rfl⟩ : BasicMat Int 1 1).operatorCall (1 - 1) (2 - 1) = none ∧
      (⟨[5], rfl⟩ : BasicMat Int 1 1).PreMult (⟨[1, 1], rfl⟩ : BasicMat Int 2 1)
        ⟨[0, 0], rfl⟩ = none) :=
  ⟨by decide, (PreMult_range (⟨[5], rfl⟩ : BasicMat Int 1 1)
    (⟨[1, 1], rfl⟩ : BasicMat Int 2 1) ⟨[0, 0], rfl⟩ (⟨[1], rfl⟩ : BasicMat Int 1 1)
    ⟨[0], rfl⟩ ⟨[0], rfl⟩ (by decide) (by decide) (by decide)).2.2.1 (by decide)⟩

/-- C20. For every `N × M` matrix `A` and `M × M2` matrix `B` whose elements multiply
commutatively, the transpose of `A.PostMult(B)` is `B.Transpose().PostMult(A.Transpose())`:
all five calls return, and the two sides are the same matrix. -/
theorem Transpose_PostMult [Zero α] [Add α] [Mul α] {M2 : Nat}
    (A : BasicMat α N M) (B : BasicMat α M M2) (raw1 : BasicMat α N M2)
    (raw2 : BasicMat α M2 N) (raw3 : BasicMat α M2 M) (raw4 : BasicMat α M N)
    (raw5 : BasicMat α M2 N)
    (hcomm : ∀ x, x ∈ A.m → ∀ y, y ∈ B.m → x * y = y * x) :
    ∃ P Pt Bt At, A.PostMult B raw1 = some (A, P) ∧ P.Transpose raw2 = some (P, Pt) ∧
      B.Transpose raw3 = some (B, Bt) ∧ A.Transpose raw4 = some (A, At) ∧
      Bt.PostMult At raw5 = some (Bt, Pt) :=
  PostMult_Transpose_entries A B raw1 raw2 raw3 raw4 raw5 hcomm

/-- C20 at `A = [[1, 2, 3], [4, 5, 6]]`, `B = [[7, 8], [9, 10], [11, 12]]`: the five calls
return and the two sides are the same matrix. -/
theorem Transpose_PostMult_witness :
    (∀ x, x ∈ [(1 : Int), 2, 3, 4, 5, 6] → ∀ y, y ∈ [(7 : Int), 8, 9, 10, 11, 12] →
      x * y = y * x) ∧
    ∃ P Pt Bt At,
      (⟨[1, 2, 3, 4, 5, 6], rfl⟩ : BasicMat Int 2 3).PostMult
        (⟨[7, 8, 9, 10, 11, 12], rfl⟩ : BasicMat Int 3 2) ⟨[9, 9, 9, 9], rfl⟩ =
        some (⟨[1, 2, 3, 4, 5, 6], rfl⟩, P) ∧
      P.Transpose ⟨[9, 9, 9, 9], rfl⟩ = some (P, Pt) ∧
      (⟨[7, 8, 9, 10, 11, 12], rfl⟩ : BasicMat Int 3 2).Transpose
        ⟨[9, 9, 9, 9, 9, 9], rfl⟩ = some (⟨[7, 8, 9, 10, 11, 12], rfl⟩, Bt) ∧
      (⟨[1, 2, 3, 4, 5, 6], rfl⟩ : BasicMat Int 2 3).Transpose
        ⟨[9, 9, 9, 9, 9, 9], rfl⟩ = some (⟨[1, 2, 3, 4, 5, 6], rfl⟩, At) ∧
      Bt.PostMult At ⟨[9, 9, 9, 9], rfl⟩ = some (Bt, Pt) :=
  ⟨by decide, Transpose_PostMult _ _ _ _ _ _ _ (by decide)⟩

end basic_mat
